import Mathlib

/-!
Shallow embedding of the data core of the Supermarket dashboard:
`model.py` (`SupermarketModel`) and `view.py` (`SupermarketView`).

Modelling conventions:
* NumPy float values are modelled by `ℚ` (all values involved are finite
  decimals); `NaN` results are modelled by `none`.
* A Python `dict` from column name to column is an insertion-ordered
  association list with lookup by first matching key.
* An operation that can raise an exception returns an `Option`; `none`
  models the raised exception (for `load_csv`, the `except` branch that
  returns `False`).
-/

namespace Supermarket

/-- A column: text (categorical) or floating point (numeric). -/
inductive Col where
  | strs (l : List String)
  | nums (l : List ℚ)
deriving DecidableEq, Repr

def colLen : Col → Nat
  | .strs l => l.length
  | .nums l => l.length

/-- Python dict from column name to column. -/
abbrev Dict := List (String × Col)

def dictGet (d : Dict) (k : String) : Option Col :=
  (d.find? (fun p => p.1 == k)).map (fun p => p.2)

/-- Python dict assignment `d[k] = v`: replace the binding of `k` if one
exists, otherwise append a new binding at the end (insertion order). -/
def dictSet : Dict → String → Col → Dict
  | [], k, v => [(k, v)]
  | p :: t, k, v => if p.1 == k then (k, v) :: t else p :: dictSet t k v

/-- The model state: `self.headers`, `self.data`, `self.row_count`. -/
structure Model where
  headers : List String
  data : Dict
  row_count : Nat
deriving DecidableEq, Repr

/-! ### Text parsing helpers

String primitives are implemented over `List Char` so that every
operation of the model is computable by plain reduction. -/

/-- The whitespace characters stripped by Python `str.strip()`
(ASCII subset). -/
def isSpaceChar (c : Char) : Bool :=
  c = ' ' || c = '\t' || c = '\n' || c = '\r' || c = '\x0b' || c = '\x0c'

def trimChars (cs : List Char) : List Char :=
  ((cs.dropWhile isSpaceChar).reverse.dropWhile isSpaceChar).reverse

/-- Python `str.strip()`. -/
def pyStrip (s : String) : String := ⟨trimChars s.data⟩

def splitChar (sep : Char) : List Char → List Char → List (List Char)
  | [], acc => [acc.reverse]
  | c :: rest, acc =>
      if c = sep then acc.reverse :: splitChar sep rest []
      else splitChar sep rest (c :: acc)

/-- Python `str.split(sep)` for a one-character separator: always yields
at least one piece (`''.split(',') == ['']`). -/
def pySplit (s : String) (sep : Char) : List String :=
  (splitChar sep s.data []).map (fun cs => String.mk cs)

def allDigits (cs : List Char) : Bool := cs.all (fun c => '0' ≤ c && c ≤ '9')

def digitsToNat (cs : List Char) : Nat :=
  cs.foldl (fun n c => 10 * n + (c.toNat - 48)) 0

/-- Model of Python `float(s)` on plain decimal literals: optional
surrounding whitespace, optional sign, digits with at most one decimal
point and at least one digit.  (Exotic accepted forms — exponents, `inf`,
`nan`, underscores — do not occur in this data and are modelled as
failures.) -/
def pyFloat? (s : String) : Option ℚ :=
  let cs0 := trimChars s.data
  let sgn : ℚ := if cs0.headD ' ' = '-' then -1 else 1
  let cs := if cs0.headD ' ' = '-' || cs0.headD ' ' = '+' then cs0.tail else cs0
  let ip := cs.takeWhile (fun c => c ≠ '.')
  let rest := cs.dropWhile (fun c => c ≠ '.')
  let fp := rest.tail
  if allDigits ip && allDigits fp && decide (0 < ip.length + fp.length) then
    some (sgn * ((digitsToNat ip : ℚ) + (digitsToNat fp : ℚ) / (10 ^ fp.length)))
  else none

/-- Model of Python `int(s)`: optional surrounding whitespace, optional
sign, at least one digit. -/
def pyInt? (s : String) : Option Int :=
  let cs0 := trimChars s.data
  let neg := cs0.headD ' ' = '-'
  let cs := if cs0.headD ' ' = '-' || cs0.headD ' ' = '+' then cs0.tail else cs0
  if cs ≠ [] ∧ allDigits cs then
    some (if neg then -(digitsToNat cs : Int) else (digitsToNat cs : Int))
  else none

/-- `line.strip().split(',')` -/
def parseRow (line : String) : List String := pySplit (pyStrip line) ','

/-- `lines[0].strip().split(',')` -/
def parseHeaders (l0 : String) : List String := pySplit (pyStrip l0) ','

/-! ### `load_csv`: column assembly (model.py lines 42–56) -/

/-- `for header in self.headers: self.data[header] = []` -/
def initData (headers : List String) : Dict :=
  headers.foldl (fun d h => dictSet d h (.strs [])) []

/-- The inner loop `for i, header in enumerate(self.headers)` of
`load_csv`, appending `values[i] if i < len(values) else ''` to each
column, starting at index `i`. -/
def addRowAux (values : List String) : Nat → List String → Dict → Dict
  | _, [], d => d
  | i, h :: t, d =>
      let d' := match dictGet d h with
        | some (.strs l) => dictSet d h (.strs (l ++ [values.getD i ""]))
        | _ => d
      addRowAux values (i + 1) t d'

def addRow (headers : List String) (d : Dict) (values : List String) : Dict :=
  addRowAux values 0 headers d

/-- The loop `for line in lines[1:]` of `load_csv`. -/
def buildData (headers : List String) (rows : List (List String)) : Dict :=
  rows.foldl (addRow headers) (initData headers)

/-! ### `_clean_data` (model.py lines 79–119) -/

def important_columns : List String := ["Total", "Quantity", "Rating", "Branch"]

def numeric_columns : List String :=
  ["Unit price", "Quantity", "Tax 5%", "Total",
   "cogs", "gross margin percentage", "gross income", "Rating"]

def countTrue (l : List Bool) : Nat := (l.filter id).length

/-- NumPy elementwise `&` of two boolean arrays with length-1
broadcasting; `none` models the `ValueError` raised on non-broadcastable
shapes. -/
def npAnd (a b : List Bool) : Option (List Bool) :=
  if a.length = b.length then some (List.zipWith and a b)
  else if a.length = 1 then some (b.map (fun x => a.headD true && x))
  else if b.length = 1 then some (a.map (fun x => x && b.headD true))
  else none

/-- `self.data[col] != ''`, elementwise.  A float column compared with a
string yields `True` everywhere (NumPy semantics); at the point of use
all columns still hold text. -/
def colNonEmpty : Col → List Bool
  | .strs l => l.map (fun v => !(v == ""))
  | .nums l => l.map (fun _ => true)

/-- The loop `for col in important_columns` of `_clean_data` computing
`valid_rows`; a column absent from the dict is skipped. -/
def computeMask (data : Dict) : List String → List Bool → Option (List Bool)
  | [], acc => some acc
  | c :: t, acc =>
      match dictGet data c with
      | none => computeMask data t acc
      | some col => (npAnd acc (colNonEmpty col)).bind (computeMask data t)

/-- Filter a list by a same-length boolean mask. -/
def boolFilter (mask : List Bool) (l : List α) : List α :=
  ((l.zip mask).filter (fun p => p.2)).map (fun p => p.1)

/-- NumPy boolean-mask indexing `arr[mask]`; `none` models the
`IndexError` raised when the mask length differs from the array
length. -/
def maskFilterCol (c : Col) (mask : List Bool) : Option Col :=
  if colLen c = mask.length then
    some (match c with
      | .strs l => .strs (boolFilter mask l)
      | .nums l => .nums (boolFilter mask l))
  else none

/-- The loop `for header in self.headers: self.data[header] =
self.data[header][valid_rows]`, updating the dict in place. -/
def filterAll (mask : List Bool) : List String → Dict → Option Dict
  | [], d => some d
  | h :: t, d =>
      match dictGet d h with
      | none => none
      | some c =>
          (maskFilterCol c mask).bind (fun c' => filterAll mask t (dictSet d h c'))

/-- `SupermarketModel._safe_convert_to_float`: per element, `float(val)`
with `0.0` substituted on any conversion failure. -/
def safe_convert_to_float (arr : List String) : List ℚ :=
  arr.map (fun v => match pyFloat? v with | some x => x | none => 0)

/-- `_safe_convert_to_float` applied to a whole column (on an already
numeric column, `float` succeeds elementwise and returns the value). -/
def safeConvertCol : Col → List ℚ
  | .strs l => safe_convert_to_float l
  | .nums l => l

/-- The loop `for col in numeric_columns` of `_clean_data`. -/
def convertNumeric : List String → Dict → Dict
  | [], d => d
  | c :: t, d =>
      match dictGet d c with
      | none => convertNumeric t d
      | some col => convertNumeric t (dictSet d c (.nums (safeConvertCol col)))

/-- `SupermarketModel._clean_data`: drop rows with an empty value in a
present important column, then coerce the numeric columns. -/
def clean_data (m : Model) : Option Model :=
  match computeMask m.data important_columns (List.replicate m.row_count true) with
  | none => none
  | some valid =>
      let removed : Int := (m.row_count : Int) - (countTrue valid : Int)
      if 0 < removed then
        match filterAll valid m.headers m.data with
        | none => none
        | some d' => some ⟨m.headers, convertNumeric numeric_columns d', countTrue valid⟩
      else
        some ⟨m.headers, convertNumeric numeric_columns m.data, m.row_count⟩

/-- The parsing phase of `SupermarketModel.load_csv` (lines 35–56):
header split, column assembly, raw row count `len(lines) - 1`.  `none`
models the `IndexError` on an input with no lines (caught, so the load
reports failure). -/
def load_raw (lines : List String) : Option Model :=
  match lines with
  | [] => none
  | l0 :: rest =>
      some ⟨parseHeaders l0, buildData (parseHeaders l0) (rest.map parseRow), rest.length⟩

/-- `SupermarketModel.load_csv`: parse, then `_clean_data`
(`_convert_to_numpy` is the identity in this model).  `some m` models a
load that returns `True` leaving state `m`; `none` models a load that
returns `False`. -/
def load_csv (lines : List String) : Option Model :=
  (load_raw lines).bind clean_data

/-! ### Model queries (model.py lines 134–163) -/

/-- `SupermarketModel.get_column`: `self.data.get(column_name,
np.array([]))` — the default is an empty float array. -/
def get_column (m : Model) (c : String) : Col :=
  (dictGet m.data c).getD (.nums [])

/-- Lexicographic (code point) comparison of strings, the order NumPy
uses for string arrays. -/
def charsLe : List Char → List Char → Bool
  | [], _ => true
  | _ :: _, [] => false
  | a :: as, b :: bs => if a < b then true else if a = b then charsLe as bs else false

def strLe (a b : String) : Bool := charsLe a.data b.data

def sortedDedupStr (l : List String) : List String :=
  (List.insertionSort (fun a b : String => strLe a b = true) l).dedup

def sortedDedupQ (l : List ℚ) : List ℚ :=
  (List.insertionSort (fun a b : ℚ => a ≤ b) l).dedup

/-- `np.unique`: the distinct values, sorted ascending. -/
def uniqueCol : Col → Col
  | .strs l => .strs (sortedDedupStr l)
  | .nums l => .nums (sortedDedupQ l)

/-- `SupermarketModel.get_unique_values`. -/
def get_unique_values (m : Model) (c : String) : Col :=
  uniqueCol (get_column m c)

/-- The loop of `filter_by_value` building `filtered_data` over
`self.headers`; `none` models the `KeyError`/`IndexError` on a missing
column or mismatched mask length. -/
def buildFiltered (data : Dict) (mask : List Bool) : List String → Option Dict
  | [] => some []
  | h :: t =>
      match dictGet data h with
      | none => none
      | some c =>
          (maskFilterCol c mask).bind (fun c' =>
            (buildFiltered data mask t).map (fun rest => (h, c') :: rest))

/-- `SupermarketModel.filter_by_value`; `none` models the `KeyError`
raised when the column is absent.  The view layer only filters
categorical (string) columns, so the value is a string; comparing a
float column with a string yields an all-`False` mask (NumPy
semantics). -/
def filter_by_value (m : Model) (c v : String) : Option Dict :=
  match dictGet m.data c with
  | none => none
  | some col =>
      let mask := match col with
        | .strs l => l.map (fun x => x == v)
        | .nums l => l.map (fun _ => false)
      buildFiltered m.data mask m.headers

/-- The record returned by `get_summary`. -/
structure Summary where
  total_rows : Nat
  total_sales : ℚ
  average_rating : Option ℚ
  total_quantity : ℚ
  branches : Nat
  cities : Nat
  product_lines : Nat
deriving DecidableEq, Repr

/-- `np.sum`; `none` models the `TypeError` on a string array
(`np.sum` of an empty array is `0.0`). -/
def npSumCol : Col → Option ℚ
  | .nums l => some l.sum
  | .strs _ => none

/-- `np.mean`; the outer `none` models the `TypeError` on a string
array, the inner `none` models the `NaN` produced for an empty array. -/
def npMeanCol : Col → Option (Option ℚ)
  | .nums [] => some none
  | .nums (x :: l) => some (some ((x :: l).sum / ((x :: l).length : ℚ)))
  | .strs _ => none

/-- `SupermarketModel.get_summary`; `none` models the `KeyError` or
`TypeError` raised when `Total`, `Rating` or `Quantity` is absent or
non-numeric.  The three unique-value counts use the lenient
`get_unique_values`. -/
def get_summary (m : Model) : Option Summary :=
  (dictGet m.data "Total").bind (fun tot =>
    (npSumCol tot).bind (fun ts =>
      (dictGet m.data "Rating").bind (fun rat =>
        (npMeanCol rat).bind (fun ar =>
          (dictGet m.data "Quantity").bind (fun qty =>
            (npSumCol qty).map (fun tq =>
              ⟨m.row_count, ts, ar, tq,
               colLen (get_unique_values m "Branch"),
               colLen (get_unique_values m "City"),
               colLen (get_unique_values m "Product line")⟩))))))

/-! ### View layer (view.py) -/

/-- The loop `for branch in branches: ... sales.append(total)`: filter
by the group value, read its `Total` column, sum it, and append. -/
def sumGroupLoop (m : Model) (c : String) : List String → Option (List ℚ)
  | [] => some []
  | g :: gs =>
      (filter_by_value m c g).bind (fun fd =>
        (dictGet fd "Total").bind (fun col =>
          (npSumCol col).bind (fun t =>
            (sumGroupLoop m c gs).map (fun rest => t :: rest))))

/-- The shared shape of `get_sales_by_branch` / `get_sales_by_city` /
`get_sales_by_product_line`: enumerate the unique values of column `c`,
and for each one filter the table and sum the `Total` column.  `none`
models a raised `KeyError`/`TypeError` (e.g. `Total` absent from
`self.headers`).  When the column is absent, `np.unique` yields an empty
float array and the loop body never runs; the unreachable case of a
nonempty numeric grouping column (impossible for a loaded table, since
the grouping columns are categorical) is modelled as a failure. -/
def salesByGroup (m : Model) (c : String) : Option (List String × List ℚ) :=
  match get_unique_values m c with
  | .nums [] => some ([], [])
  | .nums (_ :: _) => none
  | .strs gs => (sumGroupLoop m c gs).map (fun ss => (gs, ss))

/-- `SupermarketView.get_sales_by_branch`. -/
def get_sales_by_branch (m : Model) : Option (List String × List ℚ) :=
  salesByGroup m "Branch"

/-- `SupermarketView.get_sales_by_city`. -/
def get_sales_by_city (m : Model) : Option (List String × List ℚ) :=
  salesByGroup m "City"

/-- `SupermarketView.get_sales_by_product_line`. -/
def get_sales_by_product_line (m : Model) : Option (List String × List ℚ) :=
  salesByGroup m "Product line"

/-- `np.arange(start, stop, step)` (for a positive rational step). -/
def npArange (start stop step : ℚ) : List ℚ :=
  (List.range (((stop - start) / step).ceil.toNat)).map
    (fun i => start + step * (i : ℚ))

/-- The bin edges `np.arange(4.0, 10.5, 0.5)` of
`get_rating_distribution`. -/
def ratingEdges : List ℚ := npArange 4 (21/2) (1/2)

/-- Whether `v` falls in bin `i` of `np.histogram` with the given edges:
every bin is right-open except the last, which is closed. -/
def inBin (edges : List ℚ) (i : Nat) (v : ℚ) : Bool :=
  if i + 2 = edges.length then
    decide (edges.getD i 0 ≤ v) && decide (v ≤ edges.getD (i + 1) 0)
  else
    decide (edges.getD i 0 ≤ v) && decide (v < edges.getD (i + 1) 0)

/-- The bin counts of `np.histogram(vals, bins=edges)`. -/
def histCounts (edges : List ℚ) (vals : List ℚ) : List Nat :=
  (List.range (edges.length - 1)).map
    (fun i => (vals.filter (inBin edges i)).length)

/-- `SupermarketView.get_rating_distribution`, returning
`(bin_edges, hist)`; `none` models the `TypeError` of `np.histogram` on
a string array. -/
def get_rating_distribution (m : Model) : Option (List ℚ × List Nat) :=
  match get_column m "Rating" with
  | .strs _ => none
  | .nums l => some (ratingEdges, histCounts ratingEdges l)

/-- The `month_map` table of `get_monthly_sales_trend`. -/
def month_map : List (String × String) :=
  [("1", "January"), ("2", "February"), ("3", "March"), ("4", "April"),
   ("5", "May"), ("6", "June"), ("7", "July"), ("8", "August"),
   ("9", "September"), ("10", "October"), ("11", "November"), ("12", "December")]

/-- `month_map.get(m, m)`. -/
def monthName (s : String) : String :=
  ((month_map.find? (fun p => p.1 == s)).map (fun p => p.2)).getD s

/-- One iteration of the accumulation loop of `get_monthly_sales_trend`:
the first `/`-delimited token of the date is computed (`str.split`
always yields a nonempty list), the key is inserted with value 0 if new,
then the addition of `totals[i]` is attempted.  An out-of-range index or
a non-numeric `Total` column raises inside the `try`, so the addition is
skipped — but the freshly inserted key remains, with value 0. -/
def accumMonth (totals : Col) (acc : List (String × ℚ)) (i : Nat) (date : String) :
    List (String × ℚ) :=
  let tok := (pySplit date '/').headD ""
  let acc1 := if acc.any (fun p => p.1 == tok) then acc else acc ++ [(tok, 0)]
  match totals with
  | .nums l =>
      match l.get? i with
      | some q => acc1.map (fun p => if p.1 == tok then (p.1, p.2 + q) else p)
      | none => acc1
  | .strs _ => acc1

/-- The loop `for i, date in enumerate(dates)` of
`get_monthly_sales_trend`, starting at index `i`. -/
def accumMonths (totals : Col) : Nat → List String → List (String × ℚ) → List (String × ℚ)
  | _, [], acc => acc
  | i, d :: ds, acc => accumMonths totals (i + 1) ds (accumMonth totals acc i d)

/-- `SupermarketView.get_monthly_sales_trend`; `none` models the uncaught
`ValueError` raised by `sorted(monthly_sales.keys(), key=lambda x:
int(x))` when some accumulated first token of a `Date` value is not an
integer literal.  (A numeric `Date` column has no `.split`, so every
iteration of the accumulation loop is skipped by the `except`.) -/
def get_monthly_sales_trend (m : Model) : Option (List String × List ℚ) :=
  let dates : List String := match get_column m "Date" with
    | .strs l => l
    | .nums _ => []
  let ms := accumMonths (get_column m "Total") 0 dates []
  if ms.all (fun p => (pyInt? p.1).isSome) then
    let months := List.insertionSort
      (fun a b : String => ((pyInt? a).getD 0) ≤ ((pyInt? b).getD 0))
      (ms.map (fun p => p.1))
    some (months.map monthName,
          months.map (fun mo => (((ms.find? (fun p => p.1 == mo)).map (fun p => p.2)).getD 0)))
  else none

/-- The comparison `np.argsort` effectively sorts indices by: ascending
value, ties by ascending index (NumPy's sort is stable for the small
arrays involved, where introsort reduces to insertion sort). -/
def argsortRel (s : List ℚ) (i j : Nat) : Prop :=
  s.getD i 0 < s.getD j 0 ∨ (s.getD i 0 = s.getD j 0 ∧ i ≤ j)

instance (s : List ℚ) : DecidableRel (argsortRel s) := fun i j =>
  inferInstanceAs (Decidable (s.getD i 0 < s.getD j 0 ∨ (s.getD i 0 = s.getD j 0 ∧ i ≤ j)))

instance (s : List ℚ) : IsTrans Nat (argsortRel s) where
  trans := by
    intro a b c hab hbc
    rcases hab with h1 | ⟨h1, h2⟩ <;> rcases hbc with h3 | ⟨h3, h4⟩
    · exact Or.inl (lt_trans h1 h3)
    · exact Or.inl (h3 ▸ h1)
    · exact Or.inl (h1 ▸ h3)
    · exact Or.inr ⟨h1.trans h3, le_trans h2 h4⟩

instance (s : List ℚ) : IsTotal Nat (argsortRel s) where
  total := by
    intro a b
    rcases lt_trichotomy (s.getD a 0) (s.getD b 0) with h | h | h
    · exact Or.inl (Or.inl h)
    · rcases le_total a b with hab | hab
      · exact Or.inl (Or.inr ⟨h, hab⟩)
      · exact Or.inr (Or.inr ⟨h.symm, hab⟩)
    · exact Or.inr (Or.inl h)

/-- `np.argsort` of a float array: the indices that sort it ascending. -/
def argsort (s : List ℚ) : List Nat :=
  List.insertionSort (argsortRel s) (List.range s.length)

/-- `SupermarketView.get_top_products`: sales by product line, indices
sorted descending by `np.argsort(sales)[::-1]`, truncated to `top_n`,
and used to fancy-index both arrays. -/
def get_top_products (m : Model) (top_n : Nat) : Option (List String × List ℚ) :=
  (get_sales_by_product_line m).map (fun ps =>
    let idx := ((argsort ps.2).reverse).take top_n
    (idx.map (fun i => ps.1.getD i ""), idx.map (fun i => ps.2.getD i 0)))

/-! ### Characterization helpers (used only to state properties)

These definitions are not translations of code; they are the vocabulary
in which the behaviour of `load_csv` is characterized. -/

/-- Whether a row satisfies the validity requirement that `_clean_data`
enforces for one required column: if the column is among the headers,
the row's cell there must be non-empty. -/
def requiredOk (hs : List String) (r : List String) (c : String) : Bool :=
  !(decide (c ∈ hs)) || !(r.getD (List.indexOf c hs) "" == "")

/-- Row validity as `_clean_data` implements it: every required column
that is present among the headers is non-empty in this row. -/
def rowValid (hs : List String) (r : List String) : Bool :=
  important_columns.all (requiredOk hs r)

/-- The final form of a column named `h` holding cell values `vals`:
numeric columns are coerced with `_safe_convert_to_float`, the rest stay
text. -/
def mkCol (h : String) (vals : List String) : Col :=
  if h ∈ numeric_columns then .nums (safe_convert_to_float vals) else .strs vals

/-- Applying a boolean mask to a column, total form (no length guard). -/
def colMaskTotal (mask : List Bool) : Col → Col
  | .strs l => .strs (boolFilter mask l)
  | .nums l => .nums (boolFilter mask l)

/-! ### State-passing forms of the query operations

Each Python query method reads `self` and never assigns to
`self.headers`, `self.data` or `self.row_count`; its effect on the model
state is therefore the identity, and each state-passing form returns the
incoming state unchanged alongside the result. -/

def get_columnS (m : Model) (c : String) : Model × Col := (m, get_column m c)

def get_unique_valuesS (m : Model) (c : String) : Model × Col := (m, get_unique_values m c)

def filter_by_valueS (m : Model) (c v : String) : Model × Option Dict :=
  (m, filter_by_value m c v)

def get_summaryS (m : Model) : Model × Option Summary := (m, get_summary m)

def get_sales_by_branchS (m : Model) : Model × Option (List String × List ℚ) :=
  (m, get_sales_by_branch m)

def get_rating_distributionS (m : Model) : Model × Option (List ℚ × List Nat) :=
  (m, get_rating_distribution m)

def get_monthly_sales_trendS (m : Model) : Model × Option (List String × List ℚ) :=
  (m, get_monthly_sales_trend m)

def get_top_productsS (m : Model) (top_n : Nat) : Model × Option (List String × List ℚ) :=
  (m, get_top_products m top_n)

/-! ### Dictionary lemmas -/

theorem dictGet_dictSet_self (d : Dict) (k : String) (v : Col) :
    dictGet (dictSet d k v) k = some v := by
  induction d with
  | nil => simp [dictSet, dictGet]
  | cons p t ih =>
      by_cases h : p.1 = k
      · simp [dictSet, dictGet, h]
      · simp only [dictSet, beq_iff_eq, h, if_false]
        simpa [dictGet, h] using ih

theorem dictGet_dictSet_ne (d : Dict) (k k' : String) (v : Col) (h : k' ≠ k) :
    dictGet (dictSet d k v) k' = dictGet d k' := by
  induction d with
  | nil => simp [dictSet, dictGet, Ne.symm h]
  | cons p t ih =>
      by_cases hp : p.1 = k
      · simp [dictSet, dictGet, hp, Ne.symm h, h]
      · by_cases hp' : p.1 = k'
        · simp [dictSet, dictGet, hp, hp', h]
        · simpa [dictSet, dictGet, hp, hp'] using ih

/-! ### Characterization of the column-assembly phase -/

theorem dictGet_initData_aux (hs : List String) :
    ∀ (d : Dict) (h : String),
      dictGet (hs.foldl (fun d h => dictSet d h (.strs [])) d) h =
        if h ∈ hs then some (.strs []) else dictGet d h := by
  induction hs with
  | nil => intro d h; simp
  | cons h0 t ih =>
      intro d h
      simp only [List.foldl_cons, ih]
      by_cases ht : h ∈ t
      · simp [ht]
      · by_cases h0h : h = h0
        · subst h0h; simp [ht, dictGet_dictSet_self]
        · simp [ht, h0h, dictGet_dictSet_ne d h0 h _ h0h]

theorem dictGet_initData (hs : List String) (h : String) :
    dictGet (initData hs) h = if h ∈ hs then some (.strs []) else none := by
  simpa [dictGet, initData] using dictGet_initData_aux hs [] h

theorem addRowAux_not_mem (v : List String) :
    ∀ (hs : List String) (i : Nat) (d : Dict) (h : String), h ∉ hs →
      dictGet (addRowAux v i hs d) h = dictGet d h := by
  intro hs
  induction hs with
  | nil => intro i d h _; simp [addRowAux]
  | cons h0 t ih =>
      intro i d h hmem
      have h0h : h ≠ h0 := fun e => hmem (e ▸ List.mem_cons_self h0 t)
      have ht : h ∉ t := fun e => hmem (List.mem_cons_of_mem h0 e)
      rw [addRowAux, ih (i + 1) _ h ht]
      cases hget : dictGet d h0 with
      | none => rfl
      | some c =>
          cases c with
          | strs l => exact dictGet_dictSet_ne d h0 h _ h0h
          | nums l => rfl

theorem addRowAux_get (v : List String) :
    ∀ (hs : List String), hs.Nodup →
      ∀ (i j : Nat) (hj : j < hs.length) (d : Dict) (l : List String),
        dictGet d (hs.get ⟨j, hj⟩) = some (.strs l) →
        dictGet (addRowAux v i hs d) (hs.get ⟨j, hj⟩) =
          some (.strs (l ++ [v.getD (i + j) ""])) := by
  intro hs
  induction hs with
  | nil => intro _ i j hj; exact absurd hj (by simp)
  | cons h0 t ih =>
      intro hnd i j hj d l hget
      rcases List.nodup_cons.mp hnd with ⟨h0t, hndt⟩
      cases j with
      | zero =>
          simp only [List.get] at hget ⊢
          rw [addRowAux, hget]
          rw [addRowAux_not_mem v t (i + 1) _ h0 h0t]
          simpa using dictGet_dictSet_self d h0 _
      | succ j' =>
          simp only [List.get] at hget ⊢
          have hj' : j' < t.length := by simpa using hj
          have hmem : t.get ⟨j', hj'⟩ ∈ t := List.get_mem t j' hj'
          have hne : t.get ⟨j', hj'⟩ ≠ h0 := fun e => h0t (e ▸ hmem)
          have step : dictGet
              (match dictGet d h0 with
               | some (.strs l0) => dictSet d h0 (.strs (l0 ++ [v.getD i ""]))
               | _ => d) (t.get ⟨j', hj'⟩) = dictGet d (t.get ⟨j', hj'⟩) := by
            cases hget0 : dictGet d h0 with
            | none => rfl
            | some c =>
                cases c with
                | strs l0 => exact dictGet_dictSet_ne d h0 _ _ hne
                | nums l0 => rfl
          have hget' : dictGet
              (match dictGet d h0 with
               | some (.strs l0) => dictSet d h0 (.strs (l0 ++ [v.getD i ""]))
               | _ => d) (t.get ⟨j', hj'⟩) = some (.strs l) := step.trans hget
          have := ih hndt (i + 1) j' hj' _ _ hget'
          rw [addRowAux]
          simpa [Nat.add_assoc, Nat.add_comm 1 j'] using this

theorem dictGet_buildData_aux (hs : List String) (hnd : hs.Nodup) :
    ∀ (rows : List (List String)) (d : Dict) (acc : Nat → List String),
      (∀ j (hj : j < hs.length), dictGet d (hs.get ⟨j, hj⟩) = some (.strs (acc j))) →
      ∀ j (hj : j < hs.length),
        dictGet (rows.foldl (addRow hs) d) (hs.get ⟨j, hj⟩) =
          some (.strs (acc j ++ rows.map (fun r => r.getD j ""))) := by
  intro rows
  induction rows with
  | nil => intro d acc hd j hj; simpa using hd j hj
  | cons r rs ih =>
      intro d acc hd j hj
      rw [List.foldl_cons]
      have hd' : ∀ j (hj : j < hs.length),
          dictGet (addRow hs d r) (hs.get ⟨j, hj⟩) =
            some (.strs (acc j ++ [r.getD j ""])) := by
        intro j hj
        simpa using addRowAux_get r hs hnd 0 j hj d (acc j) (hd j hj)
      have := ih (addRow hs d r) (fun j => acc j ++ [r.getD j ""]) hd' j hj
      simpa [List.append_assoc] using this

/-- With distinct header names, the assembled column of the `j`-th
header is exactly the `j`-th field (or `''`) of every data row, in
order. -/
theorem dictGet_buildData (hs : List String) (hnd : hs.Nodup)
    (rows : List (List String)) (j : Nat) (hj : j < hs.length) :
    dictGet (buildData hs rows) (hs.get ⟨j, hj⟩) =
      some (.strs (rows.map (fun r => r.getD j ""))) := by
  have hd : ∀ j (hj : j < hs.length),
      dictGet (initData hs) (hs.get ⟨j, hj⟩) = some (.strs []) := by
    intro j hj
    rw [dictGet_initData]
    simp [List.get_mem]
  simpa using dictGet_buildData_aux hs hnd rows (initData hs) (fun _ => []) hd j hj

theorem dictGet_buildData_not_mem (hs : List String) (rows : List (List String))
    (h : String) (hmem : h ∉ hs) :
    dictGet (buildData hs rows) h = none := by
  unfold buildData
  have : ∀ (rows : List (List String)) (d : Dict),
      dictGet (rows.foldl (addRow hs) d) h = dictGet d h := by
    intro rows
    induction rows with
    | nil => intro d; rfl
    | cons r rs ih =>
        intro d
        rw [List.foldl_cons, ih]
        exact addRowAux_not_mem r hs 0 d h hmem
  rw [this rows (initData hs), dictGet_initData]
  simp [hmem]

/-- The assembled column of a header name `c` present among distinct
headers, indexed by name. -/
theorem dictGet_buildData_name (hs : List String) (hnd : hs.Nodup)
    (rows : List (List String)) (c : String) (hc : c ∈ hs) :
    dictGet (buildData hs rows) c =
      some (.strs (rows.map (fun r => r.getD (List.indexOf c hs) "" ))) := by
  have hlt : List.indexOf c hs < hs.length := List.indexOf_lt_length.mpr hc
  have hget : hs.get ⟨List.indexOf c hs, hlt⟩ = c := List.indexOf_get hlt
  have := dictGet_buildData hs hnd rows (List.indexOf c hs) hlt
  rwa [hget] at this

/-! ### Characterization of the cleaning phase -/

theorem zipWith_map_same {α β γ δ : Type _} (f : β → γ → δ) (g : α → β) (h : α → γ) :
    ∀ l : List α, List.zipWith f (l.map g) (l.map h) = l.map (fun x => f (g x) (h x)) := by
  intro l
  induction l with
  | nil => rfl
  | cons x xs ih => simp [ih]

theorem countTrue_map {α : Type _} (f : α → Bool) (l : List α) :
    countTrue (l.map f) = (l.filter f).length := by
  induction l with
  | nil => rfl
  | cons x xs ih =>
      cases hx : f x <;>
        simp [countTrue, List.filter_cons, hx, ← ih]

theorem boolFilter_map {α β : Type _} (f : α → Bool) (g : α → β) (l : List α) :
    boolFilter (l.map f) (l.map g) = (l.filter f).map g := by
  induction l with
  | nil => rfl
  | cons x xs ih =>
      cases hx : f x <;>
        simp [boolFilter, List.filter_cons, hx, ← ih]

theorem computeMask_eq (hs : List String) (hnd : hs.Nodup) (rows : List (List String)) :
    ∀ (cs : List String) (g : List String → Bool),
      computeMask (buildData hs rows) cs (rows.map g) =
        some (rows.map (fun r => g r && cs.all (requiredOk hs r))) := by
  intro cs
  induction cs with
  | nil =>
      intro g
      have : (fun r => g r && List.all [] (requiredOk hs r)) = fun r => g r := by
        funext r; simp
      rw [computeMask, this]
  | cons c t ih =>
      intro g
      by_cases hc : c ∈ hs
      · have hd := dictGet_buildData_name hs hnd rows c hc
        have hmap : (rows.map (fun r => r.getD (List.indexOf c hs) "")).map
              (fun v => !(v == "")) =
            rows.map (fun r => !(r.getD (List.indexOf c hs) "" == "")) := by
          rw [List.map_map]; rfl
        have hand : npAnd (rows.map g)
              (rows.map (fun r => !(r.getD (List.indexOf c hs) "" == ""))) =
            some (rows.map (fun r => g r && !(r.getD (List.indexOf c hs) "" == ""))) := by
          unfold npAnd
          rw [if_pos (by simp), zipWith_map_same]
        simp only [computeMask, hd, colNonEmpty, hmap, hand, Option.some_bind]
        rw [ih]
        have : (fun r => (g r && !(r.getD (List.indexOf c hs) "" == "")) &&
              t.all (requiredOk hs r)) =
            (fun r => g r && (c :: t).all (requiredOk hs r)) := by
          funext r
          simp [List.all_cons, requiredOk, hc, Bool.and_assoc]
        rw [this]
      · have hd := dictGet_buildData_not_mem hs rows c hc
        simp only [computeMask, hd]
        rw [ih]
        have : (fun r => g r && t.all (requiredOk hs r)) =
            (fun r => g r && (c :: t).all (requiredOk hs r)) := by
          funext r
          simp [List.all_cons, requiredOk, hc]
        rw [this]

theorem filterAll_char (mask : List Bool) :
    ∀ (hs : List String) (d : Dict), hs.Nodup →
      (∀ h ∈ hs, ∃ l, dictGet d h = some (.strs l) ∧ l.length = mask.length) →
      ∃ d', filterAll mask hs d = some d' ∧
        (∀ h ∈ hs, dictGet d' h = (dictGet d h).map (colMaskTotal mask)) ∧
        (∀ h, h ∉ hs → dictGet d' h = dictGet d h) := by
  intro hs
  induction hs with
  | nil =>
      intro d _ _
      exact ⟨d, rfl, by simp, fun h _ => rfl⟩
  | cons h0 t ih =>
      intro d hnd hcols
      rcases List.nodup_cons.mp hnd with ⟨h0t, hndt⟩
      rcases hcols h0 (List.mem_cons_self h0 t) with ⟨l0, hl0, hlen0⟩
      have hmfc : maskFilterCol (.strs l0) mask = some (.strs (boolFilter mask l0)) := by
        simp [maskFilterCol, colLen, hlen0]
      have hcols1 : ∀ h ∈ t,
          ∃ l, dictGet (dictSet d h0 (.strs (boolFilter mask l0))) h = some (.strs l) ∧
            l.length = mask.length := by
        intro h hmem
        have hne : h ≠ h0 := fun e => h0t (e ▸ hmem)
        rw [dictGet_dictSet_ne d h0 h _ hne]
        exact hcols h (List.mem_cons_of_mem _ hmem)
      rcases ih (dictSet d h0 (.strs (boolFilter mask l0))) hndt hcols1 with
        ⟨d', hfa, hin, hout⟩
      refine ⟨d', ?_, ?_, ?_⟩
      · rw [filterAll, hl0]
        show (maskFilterCol (Col.strs l0) mask).bind
            (fun c' => filterAll mask t (dictSet d h0 c')) = some d'
        rw [hmfc, Option.some_bind]
        exact hfa
      · intro h hmem
        rcases List.mem_cons.mp hmem with he | hmem'
        · subst he
          rw [hout h h0t, dictGet_dictSet_self, hl0]
          rfl
        · rw [hin h hmem']
          have hne : h ≠ h0 := fun e => h0t (e ▸ hmem')
          rw [dictGet_dictSet_ne d h0 h _ hne]
      · intro h hmem
        have hne : h ≠ h0 := fun e => hmem (e ▸ List.mem_cons_self h0 t)
        have ht : h ∉ t := fun e => hmem (List.mem_cons_of_mem h0 e)
        rw [hout h ht, dictGet_dictSet_ne d h0 h _ hne]

theorem convertNumeric_not_mem :
    ∀ (cs : List String) (d : Dict) (h : String), h ∉ cs →
      dictGet (convertNumeric cs d) h = dictGet d h := by
  intro cs
  induction cs with
  | nil => intro d h _; rfl
  | cons c t ih =>
      intro d h hmem
      have hne : h ≠ c := fun e => hmem (e ▸ List.mem_cons_self c t)
      have ht : h ∉ t := fun e => hmem (List.mem_cons_of_mem c e)
      cases hget : dictGet d c with
      | none => rw [convertNumeric, hget]; exact ih d h ht
      | some col =>
          rw [convertNumeric, hget, ih _ h ht, dictGet_dictSet_ne d c h _ hne]

theorem convertNumeric_char :
    ∀ (cs : List String), cs.Nodup → ∀ (d : Dict) (h : String),
      dictGet (convertNumeric cs d) h =
        if h ∈ cs then (dictGet d h).map (fun c => .nums (safeConvertCol c))
        else dictGet d h := by
  intro cs
  induction cs with
  | nil => intro _ d h; simp [convertNumeric]
  | cons c t ih =>
      intro hnd d h
      rcases List.nodup_cons.mp hnd with ⟨hct, hndt⟩
      cases hget : dictGet d c with
      | none =>
          rw [convertNumeric, hget]
          by_cases he : h = c
          · subst he
            rw [convertNumeric_not_mem t d h hct, hget]
            simp [List.mem_cons]
          · rw [ih hndt d h]
            simp [List.mem_cons, he]
      | some col =>
          rw [convertNumeric, hget]
          by_cases he : h = c
          · subst he
            rw [convertNumeric_not_mem t _ h hct, dictGet_dictSet_self, hget]
            simp [List.mem_cons]
          · rw [ih hndt _ h, dictGet_dictSet_ne d c h _ he]
            simp [List.mem_cons, he]

theorem clean_data_eq (hs : List String) (d : Dict) (n : Nat) (valid : List Bool)
    (hv : computeMask d important_columns (List.replicate n true) = some valid) :
    clean_data ⟨hs, d, n⟩ =
      if 0 < (n : Int) - (countTrue valid : Int) then
        match filterAll valid hs d with
        | none => none
        | some d' => some ⟨hs, convertNumeric numeric_columns d', countTrue valid⟩
      else some ⟨hs, convertNumeric numeric_columns d, n⟩ := by
  unfold clean_data
  dsimp only
  rw [hv]

/-- Full characterization of a successful load with distinct header
names: the load succeeds, the retained rows are exactly the rows that
satisfy the validity requirement, in their original order, across every
column, and numeric columns are coerced elementwise with
`_safe_convert_to_float`. -/
theorem load_char (l0 : String) (rest : List String)
    (hnd : (parseHeaders l0).Nodup) :
    ∃ m, load_csv (l0 :: rest) = some m ∧
      m.headers = parseHeaders l0 ∧
      m.row_count = ((rest.map parseRow).filter (rowValid (parseHeaders l0))).length ∧
      ∀ j (hj : j < (parseHeaders l0).length),
        dictGet m.data ((parseHeaders l0).get ⟨j, hj⟩) =
          some (mkCol ((parseHeaders l0).get ⟨j, hj⟩)
            (((rest.map parseRow).filter (rowValid (parseHeaders l0))).map
              (fun r => r.getD j ""))) := by
  have hrep : (List.replicate rest.length true : List Bool) =
      (rest.map parseRow).map (fun _ => true) := by
    rw [List.map_const', List.length_map]
  have hmask : computeMask (buildData (parseHeaders l0) (rest.map parseRow))
      important_columns (List.replicate rest.length true) =
      some ((rest.map parseRow).map (rowValid (parseHeaders l0))) := by
    rw [hrep, computeMask_eq (parseHeaders l0) hnd (rest.map parseRow) important_columns
      (fun _ => true)]
    rfl
  have hload : load_csv (l0 :: rest) =
      clean_data ⟨parseHeaders l0, buildData (parseHeaders l0) (rest.map parseRow),
        rest.length⟩ := rfl
  rw [clean_data_eq _ _ _ _ hmask] at hload
  have hK : countTrue ((rest.map parseRow).map (rowValid (parseHeaders l0))) =
      ((rest.map parseRow).filter (rowValid (parseHeaders l0))).length :=
    countTrue_map _ _
  by_cases hful : ((rest.map parseRow).filter (rowValid (parseHeaders l0))).length =
      (rest.map parseRow).length
  · -- no rows removed: the else branch
    have hif : ¬(0 < (rest.length : Int) -
        (countTrue ((rest.map parseRow).map (rowValid (parseHeaders l0))) : Int)) := by
      rw [hK, hful, List.length_map]
      omega
    rw [if_neg hif] at hload
    have hkept : (rest.map parseRow).filter (rowValid (parseHeaders l0)) =
        rest.map parseRow :=
      List.filter_eq_self.mpr (List.filter_length_eq_length.mp hful)
    refine ⟨_, hload, rfl, ?_, ?_⟩
    · show rest.length = _
      rw [hkept, List.length_map]
    · intro j hj
      show dictGet (convertNumeric numeric_columns
          (buildData (parseHeaders l0) (rest.map parseRow)))
          ((parseHeaders l0).get ⟨j, hj⟩) = _
      rw [convertNumeric_char numeric_columns (by decide) _ _,
        dictGet_buildData (parseHeaders l0) hnd (rest.map parseRow) j hj, hkept]
      simp only [Option.map_some', mkCol]
      by_cases hn : (parseHeaders l0).get ⟨j, hj⟩ ∈ numeric_columns
      · rw [if_pos hn, if_pos hn]
        rfl
      · rw [if_neg hn, if_neg hn]
  · -- some rows removed: the filtering branch
    have hle := List.length_filter_le (rowValid (parseHeaders l0)) (rest.map parseRow)
    have hlt : ((rest.map parseRow).filter (rowValid (parseHeaders l0))).length <
        (rest.map parseRow).length := lt_of_le_of_ne hle hful
    rw [List.length_map] at hlt
    have hif : 0 < (rest.length : Int) -
        (countTrue ((rest.map parseRow).map (rowValid (parseHeaders l0))) : Int) := by
      rw [hK]
      omega
    rw [if_pos hif] at hload
    have hcols : ∀ h ∈ parseHeaders l0, ∃ l,
        dictGet (buildData (parseHeaders l0) (rest.map parseRow)) h = some (.strs l) ∧
          l.length = ((rest.map parseRow).map (rowValid (parseHeaders l0))).length := by
      intro h hmem
      exact ⟨_, dictGet_buildData_name _ hnd _ h hmem, by simp⟩
    rcases filterAll_char ((rest.map parseRow).map (rowValid (parseHeaders l0)))
      (parseHeaders l0) _ hnd hcols with ⟨d', hfa, hin, _⟩
    rw [hfa] at hload
    refine ⟨⟨parseHeaders l0, convertNumeric numeric_columns d',
        countTrue ((rest.map parseRow).map (rowValid (parseHeaders l0)))⟩, ?_, rfl, hK, ?_⟩
    · rw [hload]
    · intro j hj
      show dictGet (convertNumeric numeric_columns d')
          ((parseHeaders l0).get ⟨j, hj⟩) = _
      rw [convertNumeric_char numeric_columns (by decide) _ _,
        hin _ (List.get_mem _ j hj),
        dictGet_buildData (parseHeaders l0) hnd (rest.map parseRow) j hj]
      have hbf : colMaskTotal ((rest.map parseRow).map (rowValid (parseHeaders l0)))
          (.strs ((rest.map parseRow).map (fun r => r.getD j ""))) =
          .strs (((rest.map parseRow).filter (rowValid (parseHeaders l0))).map
            (fun r => r.getD j "")) := by
        rw [colMaskTotal, boolFilter_map]
      rw [Option.map_some', hbf]
      simp only [Option.map_some', mkCol]
      by_cases hn : (parseHeaders l0).get ⟨j, hj⟩ ∈ numeric_columns
      · rw [if_pos hn, if_pos hn]
        rfl
      · rw [if_neg hn, if_neg hn]

/-! ### Claim C1 -/

/-- C1 counterexample: for the loaded input whose header lacks the
required column `Total` entirely, the claim (a row is retained iff each
of Total, Quantity, Rating, Branch is present and non-empty) demands
that the row be dropped, since `Total` is not present for it; the code
retains the row (`row_count = 1`), because `_clean_data` skips required
columns that are absent from the data. -/
theorem C1_counterexample :
    load_csv ["Branch,Quantity,Rating", "A,1,7"] =
      some ⟨["Branch", "Quantity", "Rating"],
        [("Branch", .strs ["A"]), ("Quantity", .nums [1]), ("Rating", .nums [7])],
        1⟩ := by
  with_unfolding_all decide

/-- C1 (amended): for every loaded input with distinct header names, a
row is retained iff each required column among {Total, Quantity, Rating,
Branch} that is present in the table is non-empty for that row
(`rowValid`); every dropped row is removed from all columns, and the
retained rows keep their original relative order. -/
theorem C1_row_filter (l0 : String) (rest : List String) (m : Model)
    (hnd : (parseHeaders l0).Nodup)
    (hload : load_csv (l0 :: rest) = some m) :
    m.row_count = ((rest.map parseRow).filter (rowValid (parseHeaders l0))).length ∧
    ∀ j (hj : j < (parseHeaders l0).length),
      dictGet m.data ((parseHeaders l0).get ⟨j, hj⟩) =
        some (mkCol ((parseHeaders l0).get ⟨j, hj⟩)
          (((rest.map parseRow).filter (rowValid (parseHeaders l0))).map
            (fun r => r.getD j ""))) := by
  rcases load_char l0 rest hnd with ⟨m', hl', _, hrc, hcols⟩
  rw [hload] at hl'
  injection hl' with h
  subst h
  exact ⟨hrc, hcols⟩

def mC1W : Model :=
  ⟨["Branch", "Total", "Quantity", "Rating"],
    [("Branch", .strs ["A"]), ("Total", .nums [5]),
     ("Quantity", .nums [1]), ("Rating", .nums [7])], 1⟩

/-- C1 witness: a concrete load (second row has an empty `Total` and is
dropped; the first row is retained in every column). -/
theorem C1_witness :
    (parseHeaders "Branch,Total,Quantity,Rating").Nodup ∧
    load_csv ["Branch,Total,Quantity,Rating", "A,5,1,7", "B,,1,7"] = some mC1W ∧
    (mC1W.row_count = ((["A,5,1,7", "B,,1,7"].map parseRow).filter
        (rowValid (parseHeaders "Branch,Total,Quantity,Rating"))).length ∧
      ∀ j (hj : j < (parseHeaders "Branch,Total,Quantity,Rating").length),
        dictGet mC1W.data ((parseHeaders "Branch,Total,Quantity,Rating").get ⟨j, hj⟩) =
          some (mkCol ((parseHeaders "Branch,Total,Quantity,Rating").get ⟨j, hj⟩)
            (((["A,5,1,7", "B,,1,7"].map parseRow).filter
              (rowValid (parseHeaders "Branch,Total,Quantity,Rating"))).map
              (fun r => r.getD j "")))) :=
  ⟨by decide, by with_unfolding_all decide,
    C1_row_filter "Branch,Total,Quantity,Rating" ["A,5,1,7", "B,,1,7"] mC1W
      (by decide) (by with_unfolding_all decide)⟩

/-! ### Claim C7 -/

/-- C7 counterexample: a structurally non-empty input on which the load
nevertheless fails: the duplicated required header name `Total` makes
the assembled column twice as long as the row count, and the boolean
mask conjunction raises a `ValueError` (non-broadcastable shapes), so
`load_csv` reports failure.  The claim says only a structurally
empty/missing input makes the load fail. -/
theorem C7_counterexample :
    load_csv ["Total,Total", "1,2", "3,4"] = none ∧ ["Total,Total", "1,2", "3,4"] ≠ [] := by
  exact ⟨by with_unfolding_all decide, by simp⟩

/-- C7 (amended): every value that fails to parse as a float is replaced
by `0.0` and no such per-value failure makes the load fail; among inputs
whose header names are distinct, the load fails only on a structurally
empty input (an input whose header repeats a required column name can
also fail). -/
theorem C7_load_failure :
    load_csv [] = none ∧
    (∀ (l0 : String) (rest : List String), (parseHeaders l0).Nodup →
      (load_csv (l0 :: rest)).isSome = true) ∧
    (∀ (arr : List String) (j : Nat),
      (safe_convert_to_float arr).get? j =
        (arr.get? j).map (fun v => match pyFloat? v with | some x => x | none => 0)) := by
  refine ⟨rfl, ?_, ?_⟩
  · intro l0 rest hnd
    rcases load_char l0 rest hnd with ⟨m, hl, _⟩
    rw [hl]
    rfl
  · intro arr j
    simp [safe_convert_to_float]

/-- C7 witness: a concrete non-empty input with distinct headers loads
successfully, and an unparsable numeric value is replaced by `0.0`. -/
theorem C7_witness :
    ((parseHeaders "Branch,Total").Nodup ∧
      (load_csv ["Branch,Total", "A,xyz"]).isSome = true) ∧
    (safe_convert_to_float ["xyz"]).get? 0 =
      (["xyz"].get? 0).map (fun v => match pyFloat? v with | some x => x | none => 0) :=
  ⟨⟨by decide, C7_load_failure.2.1 "Branch,Total" ["A,xyz"] (by decide)⟩,
    C7_load_failure.2.2 ["xyz"] 0⟩

/-- C7 sanity check: the unparsable value in the witness input is indeed
stored as `0.0` after the load. -/
theorem C7_witness_value :
    (load_csv ["Branch,Total", "A,xyz"]).map (fun m => dictGet m.data "Total") =
      some (some (.nums [0])) := by
  with_unfolding_all decide

/-! ### Claim C8 -/

/-- C8: in the parsing phase of the load (before validity filtering and
coercion), each data line is split on comma; the column of the `j`-th
header holds `values[j]` when present and the empty string otherwise
(short rows padded, extra fields beyond the header count ignored, since
only indices of headers are read), and the raw `row_count` equals the
number of data lines. -/
theorem C8_parse (l0 : String) (rest : List String) (m0 : Model)
    (hnd : (parseHeaders l0).Nodup)
    (h : load_raw (l0 :: rest) = some m0) :
    m0.headers = parseHeaders l0 ∧ m0.row_count = rest.length ∧
    ∀ j (hj : j < (parseHeaders l0).length),
      dictGet m0.data ((parseHeaders l0).get ⟨j, hj⟩) =
        some (.strs (rest.map (fun line => (parseRow line).getD j ""))) := by
  have h' : some (⟨parseHeaders l0, buildData (parseHeaders l0) (rest.map parseRow),
      rest.length⟩ : Model) = some m0 := h
  injection h' with h'
  subst h'
  refine ⟨rfl, rfl, ?_⟩
  intro j hj
  rw [dictGet_buildData (parseHeaders l0) hnd (rest.map parseRow) j hj, List.map_map]
  rfl

def mC8W : Model :=
  ⟨["a", "b"], [("a", .strs ["1", "x"]), ("b", .strs ["2", ""])], 2⟩

/-- C8 witness: a concrete raw parse; the first data row has an extra
field (ignored), the second is short (padded with the empty string). -/
theorem C8_witness :
    (parseHeaders "a,b").Nodup ∧
    load_raw ["a,b", "1,2,3", "x"] = some mC8W ∧
    (mC8W.headers = parseHeaders "a,b" ∧ mC8W.row_count = ["1,2,3", "x"].length ∧
      ∀ j (hj : j < (parseHeaders "a,b").length),
        dictGet mC8W.data ((parseHeaders "a,b").get ⟨j, hj⟩) =
          some (.strs (["1,2,3", "x"].map (fun line => (parseRow line).getD j "")))) :=
  ⟨by decide, by with_unfolding_all decide,
    C8_parse "a,b" ["1,2,3", "x"] mC8W (by decide) (by with_unfolding_all decide)⟩

/-! ### Claim C9 -/

/-- C9: `get_summary` on a table with zero rows (empty `Total`, `Rating`
and `Quantity` columns) returns a record — it does not raise — with
`total_sales = 0` and an undefined (`NaN`, modelled `none`)
`average_rating`. -/
theorem C9_empty_summary (m : Model)
    (h0 : m.row_count = 0)
    (hT : dictGet m.data "Total" = some (.nums []))
    (hR : dictGet m.data "Rating" = some (.nums []))
    (hQ : dictGet m.data "Quantity" = some (.nums [])) :
    ∃ s, get_summary m = some s ∧ s.total_rows = 0 ∧ s.total_sales = 0 ∧
      s.average_rating = none := by
  refine ⟨⟨m.row_count, 0, none, 0, colLen (get_unique_values m "Branch"),
      colLen (get_unique_values m "City"), colLen (get_unique_values m "Product line")⟩,
    ?_, h0, rfl, rfl⟩
  rw [get_summary, hT, hR, hQ]
  rfl

def mC9W : Model :=
  ⟨["Branch", "City", "Product line", "Total", "Rating", "Quantity"],
    [("Branch", .strs []), ("City", .strs []), ("Product line", .strs []),
     ("Total", .nums []), ("Rating", .nums []), ("Quantity", .nums [])], 0⟩

/-- C9 witness: the table loaded from a header-only file has zero rows
and a well-defined summary with `total_sales = 0` and undefined average
rating. -/
theorem C9_witness :
    load_csv ["Branch,City,Product line,Total,Rating,Quantity"] = some mC9W ∧
    (∃ s, get_summary mC9W = some s ∧ s.total_rows = 0 ∧ s.total_sales = 0 ∧
      s.average_rating = none) :=
  ⟨by with_unfolding_all decide, C9_empty_summary mC9W rfl rfl rfl rfl⟩

/-! ### Claim C3 -/

/-- C3: contrary to the claim, a row whose `Date` yields a first
`/`-delimited token that is not an integer DOES make
`get_monthly_sales_trend` fail: the token is accumulated as a key, and
`sorted(keys, key=lambda x: int(x))` raises an uncaught `ValueError`
(modelled `none`).  On an input whose tokens are all integer months the
operation groups sums by token, sorts numerically and maps month
numbers to English names, as the claim describes. -/
theorem C3_unparsable_date_crashes :
    (load_csv ["Date,Total,Branch,Quantity,Rating",
        "abc/1/2019,10,A,1,7", "1/5/2019,20,A,1,7"]).bind get_monthly_sales_trend
      = none ∧
    (load_csv ["Date,Total,Branch,Quantity,Rating",
        "1/5/2019,20,A,1,7", "2/1/2019,10,A,1,7"]).bind get_monthly_sales_trend
      = some (["January", "February"], [20, 10]) := by
  exact ⟨by with_unfolding_all decide, by with_unfolding_all decide⟩

/-! ### Claim C10 -/

/-- C10: every query operation leaves the model state unchanged — each
Python method only reads `self`, so its state-passing form returns the
incoming table (headers, columns and row count) identically. -/
theorem C10_queries_pure (m : Model) (c v : String) (n : Nat) :
    (get_columnS m c).1 = m ∧ (get_unique_valuesS m c).1 = m ∧
    (filter_by_valueS m c v).1 = m ∧ (get_summaryS m).1 = m ∧
    (get_sales_by_branchS m).1 = m ∧ (get_rating_distributionS m).1 = m ∧
    (get_monthly_sales_trendS m).1 = m ∧ (get_top_productsS m n).1 = m :=
  ⟨rfl, rfl, rfl, rfl, rfl, rfl, rfl, rfl⟩

/-! ### Claim C6 -/

/-- C6 counterexample: `filter_by_value` on a column name absent from
the loaded file raises a `KeyError` (modelled `none`) instead of
returning an empty result as the claim states. -/
theorem C6_counterexample :
    (load_csv ["Branch", "A"]).bind (fun m => filter_by_value m "Foo" "x") = none := by
  with_unfolding_all decide

/-- C6 (amended): `get_column` and `get_unique_values` return an empty
sequence for an absent column; but `filter_by_value` raises on an absent
column, and `get_summary` raises when any of `Total`, `Rating` or
`Quantity` is absent, while tolerating the absence of the remaining
columns. -/
theorem C6_absent_columns :
    (∀ (m : Model) (c : String), dictGet m.data c = none →
      get_column m c = .nums [] ∧ get_unique_values m c = .nums [] ∧
      ∀ v, filter_by_value m c v = none) ∧
    (∀ m : Model, dictGet m.data "Total" = none → get_summary m = none) ∧
    (∀ m : Model, dictGet m.data "Rating" = none → get_summary m = none) ∧
    (∀ m : Model, dictGet m.data "Quantity" = none → get_summary m = none) ∧
    (∀ (m : Model) (ts rs qs : List ℚ),
      dictGet m.data "Total" = some (.nums ts) →
      dictGet m.data "Rating" = some (.nums rs) →
      dictGet m.data "Quantity" = some (.nums qs) →
      (get_summary m).isSome = true) := by
  refine ⟨?_, ?_, ?_, ?_, ?_⟩
  · intro m c h
    refine ⟨?_, ?_, ?_⟩
    · rw [get_column, h]
      rfl
    · rw [get_unique_values, get_column, h]
      rfl
    · intro v
      rw [filter_by_value, h]
  · intro m h
    rw [get_summary, h]
    rfl
  · intro m h
    rw [get_summary]
    cases hT : dictGet m.data "Total" with
    | none => rfl
    | some tot =>
        simp only [Option.some_bind]
        cases hS : npSumCol tot with
        | none => rfl
        | some ts =>
            simp only [Option.some_bind]
            rw [h]
            rfl
  · intro m h
    rw [get_summary]
    cases hT : dictGet m.data "Total" with
    | none => rfl
    | some tot =>
        simp only [Option.some_bind]
        cases hS : npSumCol tot with
        | none => rfl
        | some ts =>
            simp only [Option.some_bind]
            cases hR : dictGet m.data "Rating" with
            | none => rfl
            | some rat =>
                simp only [Option.some_bind]
                cases hM : npMeanCol rat with
                | none => rfl
                | some ar =>
                    simp only [Option.some_bind]
                    rw [h]
                    rfl
  · intro m ts rs qs hT hR hQ
    rw [get_summary, hT, hR, hQ]
    cases rs with
    | nil => rfl
    | cons x l => rfl

def mC6W : Model := ⟨["Branch"], [("Branch", .strs ["A"])], 1⟩

def mC6S : Model :=
  ⟨["Total", "Rating", "Quantity"],
    [("Total", .nums [5]), ("Rating", .nums [7]), ("Quantity", .nums [1])], 1⟩

/-- C6 witness: concrete tables exercising both the lenient lookups and
the raising ones. -/
theorem C6_witness :
    (dictGet mC6W.data "Foo" = none ∧
      (get_column mC6W "Foo" = .nums [] ∧ get_unique_values mC6W "Foo" = .nums [] ∧
        ∀ v, filter_by_value mC6W "Foo" v = none)) ∧
    (dictGet mC6W.data "Total" = none ∧ get_summary mC6W = none) ∧
    (dictGet mC6S.data "Total" = some (.nums [5]) ∧
      dictGet mC6S.data "Rating" = some (.nums [7]) ∧
      dictGet mC6S.data "Quantity" = some (.nums [1]) ∧
      (get_summary mC6S).isSome = true) :=
  ⟨⟨rfl, C6_absent_columns.1 mC6W "Foo" rfl⟩,
   ⟨rfl, C6_absent_columns.2.1 mC6W rfl⟩,
   ⟨rfl, rfl, rfl, C6_absent_columns.2.2.2.2 mC6S [5] [7] [1] rfl rfl rfl⟩⟩

/-! ### Claim C5 -/

theorem sum_filter_split (l : List (ℚ × String)) (p : ℚ × String → Bool) :
    ((l.filter p).map Prod.fst).sum + ((l.filter (fun a => !(p a))).map Prod.fst).sum =
      (l.map Prod.fst).sum := by
  induction l with
  | nil => simp
  | cons x xs ih =>
      cases hx : p x <;> simp [List.filter_cons, hx] <;> linarith [ih]

theorem partition_sum :
    ∀ (u : List String) (l : List (ℚ × String)), u.Nodup →
      (∀ p ∈ l, p.2 ∈ u) →
      (u.map (fun g => ((l.filter (fun p => p.2 == g)).map Prod.fst).sum)).sum =
        (l.map Prod.fst).sum := by
  intro u
  induction u with
  | nil =>
      intro l _ hcov
      cases l with
      | nil => simp
      | cons p t => exact absurd (hcov p (List.mem_cons_self p t)) (List.not_mem_nil _)
  | cons g u' ih =>
      intro l hnd hcov
      rcases List.nodup_cons.mp hnd with ⟨hgu, hndu⟩
      have hone : ∀ c ∈ u',
          l.filter (fun p => p.2 == c) =
            (l.filter (fun a => !(a.2 == g))).filter (fun p => p.2 == c) := by
        intro c hc
        have hcg : c ≠ g := fun e => hgu (e ▸ hc)
        rw [List.filter_filter]
        refine (List.filter_congr ?_).symm
        intro a _
        by_cases ha : a.2 = c
        · simp [ha, hcg]
        · simp [ha]
      have hmc : u'.map (fun c => ((l.filter (fun p => p.2 == c)).map Prod.fst).sum) =
          u'.map (fun c => (((l.filter (fun a => !(a.2 == g))).filter
            (fun p => p.2 == c)).map Prod.fst).sum) :=
        List.map_congr_left (fun c hc => by rw [hone c hc])
      have htail :
          (u'.map (fun c => ((l.filter (fun p => p.2 == c)).map Prod.fst).sum)).sum =
            ((l.filter (fun a => !(a.2 == g))).map Prod.fst).sum := by
        rw [hmc]
        refine ih (l.filter (fun a => !(a.2 == g))) hndu ?_
        intro p hp
        rcases List.mem_filter.mp hp with ⟨hpl, hpg⟩
        have hne : p.2 ≠ g := by simpa using hpg
        rcases List.mem_cons.mp (hcov p hpl) with he | hm
        · exact absurd he hne
        · exact hm
      rw [List.map_cons, List.sum_cons, htail]
      exact sum_filter_split l (fun p => p.2 == g)

theorem boolFilter_eq_keyFilter :
    ∀ (bs : List String) (ts : List ℚ) (g : String), bs.length = ts.length →
      boolFilter (bs.map (fun x => x == g)) ts =
        ((ts.zip bs).filter (fun p => p.2 == g)).map Prod.fst := by
  intro bs
  induction bs with
  | nil =>
      intro ts g hlen
      cases ts with
      | nil => rfl
      | cons t ts' => simp at hlen
  | cons b bs' ih =>
      intro ts g hlen
      cases ts with
      | nil => simp at hlen
      | cons t ts' =>
          have hlen' : bs'.length = ts'.length := by simpa using hlen
          have ihe := ih ts' g hlen'
          by_cases hb : b = g <;>
            simp [boolFilter, List.filter_cons, hb, List.zip_cons_cons] at ihe ⊢ <;>
              exact ihe

theorem maskFilterCol_nums (ts : List ℚ) (mask : List Bool) (c : Col)
    (h : maskFilterCol (.nums ts) mask = some c) :
    c = .nums (boolFilter mask ts) := by
  by_cases hg : colLen (.nums ts) = mask.length
  · rw [maskFilterCol, if_pos hg] at h
    injection h with h
    exact h.symm
  · rw [maskFilterCol, if_neg hg] at h
    exact absurd h (by simp)

theorem buildFiltered_lookup (data : Dict) (mask : List Bool) :
    ∀ (hs : List String) (fd : Dict), buildFiltered data mask hs = some fd →
      ∀ (k : String) (c : Col), dictGet fd k = some c →
        ∃ c0, dictGet data k = some c0 ∧ maskFilterCol c0 mask = some c := by
  intro hs
  induction hs with
  | nil =>
      intro fd hbf k c hget
      injection hbf with hbf
      rw [← hbf] at hget
      exact absurd hget (by simp [dictGet])
  | cons h t ih =>
      intro fd hbf k c hget
      rw [buildFiltered] at hbf
      cases hd : dictGet data h with
      | none => rw [hd] at hbf; exact absurd hbf (by simp)
      | some c1 =>
          rw [hd] at hbf
          simp only [Option.some_bind] at hbf
          cases hmf : maskFilterCol c1 mask with
          | none => rw [hmf] at hbf; exact absurd hbf (by simp)
          | some c1' =>
              rw [hmf] at hbf
              cases hrest : buildFiltered data mask t with
              | none => rw [hrest] at hbf; exact absurd hbf (by simp)
              | some rest =>
                  rw [hrest] at hbf
                  simp only [Option.map_some'] at hbf
                  injection hbf with hbf
                  rw [← hbf] at hget
                  by_cases hk : h = k
                  · subst hk
                    have : c1' = c := by
                      simpa [dictGet] using hget
                    exact ⟨c1, hd, this ▸ hmf⟩
                  · have hget' : dictGet rest k = some c := by
                      simpa [dictGet, hk] using hget
                    exact ih rest hrest k c hget'

theorem sumGroupLoop_some_forall (m : Model) (c : String) :
    ∀ (gs : List String) (ss : List ℚ), sumGroupLoop m c gs = some ss →
      ∀ g ∈ gs, ∃ y, (filter_by_value m c g).bind (fun fd =>
        (dictGet fd "Total").bind npSumCol) = some y := by
  intro gs
  induction gs with
  | nil => intro ss _ g hg; exact absurd hg (List.not_mem_nil g)
  | cons g0 t ih =>
      intro ss hloop g hg
      rw [sumGroupLoop] at hloop
      cases hfv : filter_by_value m c g0 with
      | none => rw [hfv] at hloop; exact absurd hloop (by simp)
      | some fd =>
          rw [hfv] at hloop
          simp only [Option.some_bind] at hloop
          cases hfd : dictGet fd "Total" with
          | none => rw [hfd] at hloop; exact absurd hloop (by simp)
          | some col =>
              rw [hfd] at hloop
              simp only [Option.some_bind] at hloop
              cases hsum : npSumCol col with
              | none => rw [hsum] at hloop; exact absurd hloop (by simp)
              | some t0 =>
                  rw [hsum] at hloop
                  simp only [Option.some_bind] at hloop
                  cases hrest : sumGroupLoop m c t with
                  | none => rw [hrest] at hloop; exact absurd hloop (by simp)
                  | some rest =>
                      rcases List.mem_cons.mp hg with he | hm
                      · subst he
                        exact ⟨t0, by rw [hfv, Option.some_bind, hfd, Option.some_bind, hsum]⟩
                      · exact ih rest hrest g hm

theorem sumGroupLoop_eq_map (m : Model) (c : String) (S : String → ℚ) :
    ∀ gs : List String,
      (∀ g ∈ gs, (filter_by_value m c g).bind (fun fd =>
        (dictGet fd "Total").bind npSumCol) = some (S g)) →
      sumGroupLoop m c gs = some (gs.map S) := by
  intro gs
  induction gs with
  | nil => intro _; rfl
  | cons g0 t ih =>
      intro h
      have h0 := h g0 (List.mem_cons_self g0 t)
      rw [sumGroupLoop]
      cases hfv : filter_by_value m c g0 with
      | none => rw [hfv] at h0; exact absurd h0 (by simp)
      | some fd =>
          rw [hfv] at h0
          simp only [Option.some_bind] at h0 ⊢
          cases hfd : dictGet fd "Total" with
          | none => rw [hfd] at h0; exact absurd h0 (by simp)
          | some col =>
              rw [hfd] at h0
              simp only [Option.some_bind] at h0 ⊢
              rw [h0, Option.some_bind, ih (fun g hg => h g (List.mem_cons_of_mem g0 hg))]
              rfl

theorem get_summary_total_sales (m : Model) (ts : List ℚ) (s : Summary)
    (hT : dictGet m.data "Total" = some (.nums ts))
    (hsum : get_summary m = some s) : s.total_sales = ts.sum := by
  rw [get_summary, hT] at hsum
  simp only [Option.some_bind] at hsum
  have hS : npSumCol (Col.nums ts) = some ts.sum := rfl
  rw [hS] at hsum
  simp only [Option.some_bind] at hsum
  cases hR : dictGet m.data "Rating" with
  | none => rw [hR] at hsum; exact absurd hsum (by simp)
  | some rat =>
      rw [hR] at hsum
      simp only [Option.some_bind] at hsum
      cases hM : npMeanCol rat with
      | none => rw [hM] at hsum; exact absurd hsum (by simp)
      | some ar =>
          rw [hM] at hsum
          simp only [Option.some_bind] at hsum
          cases hQ : dictGet m.data "Quantity" with
          | none => rw [hQ] at hsum; exact absurd hsum (by simp)
          | some qty =>
              rw [hQ] at hsum
              simp only [Option.some_bind] at hsum
              cases hQS : npSumCol qty with
              | none => rw [hQS] at hsum; exact absurd hsum (by simp)
              | some tq =>
                  rw [hQS] at hsum
                  simp only [Option.map_some'] at hsum
                  injection hsum with hsum
                  rw [← hsum]

/-- C5 counterexample: for the loaded table that has `Total`, `Rating`
and `Quantity` but no `Branch` column, `get_sales_by_branch` returns no
groups (sum 0) while `get_summary` reports `total_sales = 5`, so the
claimed conservation equation fails: grouping by Branch does not
partition a table that lacks the column. -/
theorem C5_counterexample :
    (load_csv ["Total,Rating,Quantity", "5,7,1"]).bind get_sales_by_branch =
      some ([], []) ∧
    ((load_csv ["Total,Rating,Quantity", "5,7,1"]).bind get_summary).map
      (fun s => s.total_sales) = some 5 ∧
    ((load_csv ["Total,Rating,Quantity", "5,7,1"]).bind get_sales_by_branch).map
        (fun p => p.2.sum) ≠
      ((load_csv ["Total,Rating,Quantity", "5,7,1"]).bind get_summary).map
        (fun s => s.total_sales) := by
  refine ⟨by with_unfolding_all decide, by with_unfolding_all decide,
    by with_unfolding_all decide⟩

/-- C5 (amended): for every table that has a (string) `Branch` column
and a numeric `Total` column of the same length (the Table invariant),
whenever both `get_sales_by_branch` and `get_summary` succeed, the sum
over all group sums equals `total_sales` — grouping by the unique Branch
values partitions the rows completely. -/
theorem C5_sum_conservation (m : Model) (bs : List String) (ts : List ℚ)
    (ls : List String) (ss : List ℚ) (s : Summary)
    (hB : dictGet m.data "Branch" = some (.strs bs))
    (hT : dictGet m.data "Total" = some (.nums ts))
    (hlen : bs.length = ts.length)
    (hsales : get_sales_by_branch m = some (ls, ss))
    (hsum : get_summary m = some s) :
    ss.sum = s.total_sales := by
  have hts := get_summary_total_sales m ts s hT hsum
  have hu : get_unique_values m "Branch" = .strs (sortedDedupStr bs) := by
    rw [get_unique_values, get_column, hB]
    rfl
  rw [get_sales_by_branch, salesByGroup, hu] at hsales
  have hsales' : (sumGroupLoop m "Branch" (sortedDedupStr bs)).map
      (fun ss => (sortedDedupStr bs, ss)) = some (ls, ss) := hsales
  clear hsales
  rename' hsales' => hsales
  cases hloop : sumGroupLoop m "Branch" (sortedDedupStr bs) with
  | none => rw [hloop] at hsales; exact absurd hsales (by simp)
  | some ss' =>
      rw [hloop] at hsales
      simp only [Option.map_some'] at hsales
      injection hsales with hsales
      have hss : ss' = ss := congrArg Prod.snd hsales
      have hfg : ∀ g ∈ sortedDedupStr bs,
          (filter_by_value m "Branch" g).bind (fun fd =>
            (dictGet fd "Total").bind npSumCol) =
            some ((boolFilter (bs.map (fun x => x == g)) ts).sum) := by
        intro g hg
        rcases sumGroupLoop_some_forall m "Branch" (sortedDedupStr bs) ss' hloop g hg with
          ⟨y, hy⟩
        have hfveq : filter_by_value m "Branch" g =
            buildFiltered m.data (bs.map (fun x => x == g)) m.headers := by
          rw [filter_by_value, hB]
        rw [hfveq] at hy ⊢
        cases hbf : buildFiltered m.data (bs.map (fun x => x == g)) m.headers with
        | none => rw [hbf] at hy; exact absurd hy (by simp)
        | some fd =>
            rw [hbf] at hy
            simp only [Option.some_bind] at hy ⊢
            cases hfd : dictGet fd "Total" with
            | none => rw [hfd] at hy; exact absurd hy (by simp)
            | some c =>
                rw [hfd] at hy
                rcases buildFiltered_lookup m.data (bs.map (fun x => x == g))
                  m.headers fd hbf "Total" c hfd with ⟨c0, hc0, hmfc⟩
                rw [hT] at hc0
                injection hc0 with hc0
                rw [← hc0] at hmfc
                rw [maskFilterCol_nums ts _ c hmfc]
                rfl
      have hmap := sumGroupLoop_eq_map m "Branch"
        (fun g => (boolFilter (bs.map (fun x => x == g)) ts).sum)
        (sortedDedupStr bs) hfg
      rw [hloop] at hmap
      injection hmap with hmap
      have hkey : (sortedDedupStr bs).map
          (fun g => (boolFilter (bs.map (fun x => x == g)) ts).sum) =
          (sortedDedupStr bs).map
            (fun g => (((ts.zip bs).filter (fun p => p.2 == g)).map Prod.fst).sum) :=
        List.map_congr_left (fun g _ => by rw [boolFilter_eq_keyFilter bs ts g hlen])
      have hpart := partition_sum (sortedDedupStr bs) (ts.zip bs)
        (List.nodup_dedup _)
        (fun p hp => by
          have hmem : p.2 ∈ bs := (List.of_mem_zip hp).2
          exact List.mem_dedup.mpr ((List.mem_insertionSort _).mpr hmem))
      rw [← hss, hmap, hkey, hpart, List.map_fst_zip ts bs (le_of_eq hlen.symm), hts]

def mC5W : Model :=
  ⟨["Branch", "Total", "Rating", "Quantity"],
    [("Branch", .strs ["A", "B"]), ("Total", .nums [5, 10]),
     ("Rating", .nums [7, 7]), ("Quantity", .nums [1, 1])], 2⟩

/-- C5 witness: a concrete two-branch table on which the conservation
equation evaluates to `5 + 10 = 15`. -/
theorem C5_witness :
    (dictGet mC5W.data "Branch" = some (.strs ["A", "B"]) ∧
      dictGet mC5W.data "Total" = some (.nums [5, 10]) ∧
      (["A", "B"] : List String).length = ([5, 10] : List ℚ).length ∧
      get_sales_by_branch mC5W = some (["A", "B"], [5, 10]) ∧
      get_summary mC5W = some ⟨2, 15, some 7, 2, 2, 0, 0⟩) ∧
    ([5, 10] : List ℚ).sum = (⟨2, 15, some 7, 2, 2, 0, 0⟩ : Summary).total_sales :=
  ⟨⟨rfl, rfl, rfl, by with_unfolding_all decide, by with_unfolding_all decide⟩,
    C5_sum_conservation mC5W ["A", "B"] [5, 10] ["A", "B"] [5, 10]
      ⟨2, 15, some 7, 2, 2, 0, 0⟩ rfl rfl rfl
      (by with_unfolding_all decide) (by with_unfolding_all decide)⟩

/-! ### Claim C4 -/

theorem argsort_sorted (s : List ℚ) : List.Sorted (argsortRel s) (argsort s) :=
  List.sorted_insertionSort _ _

theorem argsort_perm (s : List ℚ) : List.Perm (argsort s) (List.range s.length) :=
  List.perm_insertionSort _ _

theorem argsort_nodup (s : List ℚ) : (argsort s).Nodup :=
  ((argsort_perm s).nodup_iff).mpr (List.nodup_range _)

theorem argsort_mem (s : List ℚ) (i : Nat) (h : i ∈ argsort s) : i < s.length := by
  have := (argsort_perm s).mem_iff.mp h
  simpa using this

theorem sumGroupLoop_length (m : Model) (c : String) :
    ∀ (gs : List String) (ss : List ℚ), sumGroupLoop m c gs = some ss →
      ss.length = gs.length := by
  intro gs
  induction gs with
  | nil =>
      intro ss h
      injection h with h
      rw [← h]
      rfl
  | cons g0 t ih =>
      intro ss h
      rw [sumGroupLoop] at h
      cases hfv : filter_by_value m c g0 with
      | none => rw [hfv] at h; exact absurd h (by simp)
      | some fd =>
          rw [hfv] at h
          simp only [Option.some_bind] at h
          cases hfd : dictGet fd "Total" with
          | none => rw [hfd] at h; exact absurd h (by simp)
          | some col =>
              rw [hfd] at h
              simp only [Option.some_bind] at h
              cases hsum : npSumCol col with
              | none => rw [hsum] at h; exact absurd h (by simp)
              | some t0 =>
                  rw [hsum] at h
                  simp only [Option.some_bind] at h
                  cases hrest : sumGroupLoop m c t with
                  | none => rw [hrest] at h; exact absurd h (by simp)
                  | some rest =>
                      rw [hrest] at h
                      simp only [Option.map_some'] at h
                      injection h with h
                      rw [← h]
                      simpa using ih rest hrest

theorem salesByGroup_shape (m : Model) (c : String) (ps : List String) (ss : List ℚ)
    (h : salesByGroup m c = some (ps, ss)) : ps.Nodup ∧ ss.length = ps.length := by
  rw [salesByGroup] at h
  cases hu : get_unique_values m c with
  | nums l =>
      cases l with
      | nil =>
          rw [hu] at h
          have h' : (some (([], []) : List String × List ℚ)) = some (ps, ss) := h
          injection h' with h'
          have hfst : ([] : List String) = ps := congrArg Prod.fst h'
          have hsnd : ([] : List ℚ) = ss := congrArg Prod.snd h'
          constructor
          · rw [← hfst]
            exact List.nodup_nil
          · rw [← hfst, ← hsnd]
            rfl
      | cons x xs =>
          rw [hu] at h
          exact absurd h (by simp)
  | strs gs =>
      rw [hu] at h
      have h' : (sumGroupLoop m c gs).map (fun ss => (gs, ss)) = some (ps, ss) := h
      have hndgs : gs.Nodup := by
        rw [get_unique_values] at hu
        cases hcol : get_column m c with
        | strs l =>
            rw [hcol] at hu
            have he : Col.strs (sortedDedupStr l) = Col.strs gs := hu
            injection he with he
            rw [← he]
            exact List.nodup_dedup _
        | nums l =>
            rw [hcol] at hu
            have he : Col.nums (sortedDedupQ l) = Col.strs gs := hu
            exact absurd he (by simp)
      cases hloop : sumGroupLoop m c gs with
      | none => rw [hloop] at h'; exact absurd h' (by simp)
      | some ss' =>
          rw [hloop] at h'
          simp only [Option.map_some'] at h'
          injection h' with h'
          have hfst : gs = ps := congrArg Prod.fst h'
          have hsnd : ss' = ss := congrArg Prod.snd h'
          constructor
          · rw [← hfst]
            exact hndgs
          · rw [← hfst, ← hsnd]
            exact sumGroupLoop_length m c gs ss' hloop

theorem indexOf_getD_of_nodup (l : List String) (hnd : l.Nodup) (i : Nat)
    (hi : i < l.length) : List.indexOf (l.getD i "") l = i := by
  have hmem : l.getD i "" ∈ l := by
    rw [List.getD_eq_getElem _ _ hi]
    exact List.getElem_mem hi
  have hlt := List.indexOf_lt_length.mpr hmem
  have heq : l.get ⟨List.indexOf (l.getD i "") l, hlt⟩ = l.getD i "" :=
    List.indexOf_get hlt
  have heq' : l.get ⟨List.indexOf (l.getD i "") l, hlt⟩ = l.get ⟨i, hi⟩ := by
    rw [heq, List.getD_eq_getElem _ _ hi]
    rfl
  have := (hnd.get_inj_iff).mp heq'
  exact congrArg Fin.val this

/-- C4 counterexample: two product lines with equal total sales; NumPy's
ascending stable argsort followed by `[::-1]` puts the TIED labels in
reversed original order, so `get_top_products` returns `["B", "A"]`
while the claim (stability preserving original ascending unique-value
order among equal sums) demands `["A", "B"]`. -/
theorem C4_counterexample :
    (load_csv ["Product line,Total,Branch,Quantity,Rating",
        "A,10,X,1,7", "B,10,X,1,7"]).bind (fun m => get_top_products m 5) =
      some (["B", "A"], [10, 10]) ∧
    (load_csv ["Product line,Total,Branch,Quantity,Rating",
        "A,10,X,1,7", "B,10,X,1,7"]).bind (fun m => get_top_products m 5) ≠
      some (["A", "B"], [10, 10]) := by
  refine ⟨by with_unfolding_all decide, by with_unfolding_all decide⟩

/-- C4 (amended): `get_top_products n` returns at most `n` label/sum
pairs drawn from `get_sales_by_product_line`, sorted in descending order
of sum; ties among equal sums appear in REVERSE of the original
ascending unique-value order (the later product line comes first). -/
theorem C4_top_products (m : Model) (n : Nat) (ps ls : List String) (ss vs : List ℚ)
    (h1 : get_sales_by_product_line m = some (ps, ss))
    (h2 : get_top_products m n = some (ls, vs)) :
    ls.length ≤ n ∧ vs.length ≤ n ∧
    List.Pairwise (fun a b : ℚ => b ≤ a) vs ∧
    (∀ k, k < ls.length → (ls.getD k "", vs.getD k 0) ∈ ps.zip ss) ∧
    (∀ k t, k < t → t < ls.length → vs.getD k 0 = vs.getD t 0 →
      List.indexOf (ls.getD t "") ps < List.indexOf (ls.getD k "") ps) := by
  have hshape := salesByGroup_shape m "Product line" ps ss
    (by rw [← get_sales_by_product_line]; exact h1)
  rcases hshape with ⟨hndps, hlen⟩
  rw [get_top_products, h1] at h2
  simp only [Option.map_some'] at h2
  injection h2 with h2
  have hls : (((argsort ss).reverse.take n).map (fun i => ps.getD i "")) = ls :=
    congrArg Prod.fst h2
  have hvs : (((argsort ss).reverse.take n).map (fun i => ss.getD i 0)) = vs :=
    congrArg Prod.snd h2
  subst hls
  subst hvs
  have hpw : ((argsort ss).reverse.take n).Pairwise
      (fun a b => argsortRel ss b a) :=
    List.Pairwise.sublist (List.take_sublist n _)
      (List.pairwise_reverse.mpr (argsort_sorted ss))
  have hndidx : ((argsort ss).reverse.take n).Nodup :=
    List.Nodup.sublist (List.take_sublist n _)
      (List.nodup_reverse.mpr (argsort_nodup ss))
  have hmemlen : ∀ i ∈ (argsort ss).reverse.take n, i < ss.length := by
    intro i hi
    exact argsort_mem ss i (List.mem_reverse.mp ((List.take_sublist n _).subset hi))
  refine ⟨?_, ?_, ?_, ?_, ?_⟩
  · rw [List.length_map]
    exact List.length_take_le n _
  · rw [List.length_map]
    exact List.length_take_le n _
  · rw [List.pairwise_map]
    refine hpw.imp ?_
    intro a b hab
    rcases hab with h | h
    · exact le_of_lt h
    · exact le_of_eq h.1
  · intro k hk
    have hkidx : k < ((argsort ss).reverse.take n).length := by
      simpa using hk
    have hmem : ((argsort ss).reverse.take n).get ⟨k, hkidx⟩ ∈
        (argsort ss).reverse.take n := List.get_mem _ k hkidx
    have hiss : ((argsort ss).reverse.take n).get ⟨k, hkidx⟩ < ss.length :=
      hmemlen _ hmem
    have hips : ((argsort ss).reverse.take n).get ⟨k, hkidx⟩ < ps.length := by
      rw [← hlen]
      exact hiss
    have hzlen : ((argsort ss).reverse.take n).get ⟨k, hkidx⟩ < (ps.zip ss).length := by
      rw [List.length_zip]
      exact lt_min hips hiss
    have hmemz := List.get_mem (ps.zip ss) _ hzlen
    rw [List.get_zip] at hmemz
    have hgl : (((argsort ss).reverse.take n).map (fun i => ps.getD i "")).getD k "" =
        ps.getD (((argsort ss).reverse.take n).get ⟨k, hkidx⟩) "" := by
      rw [List.getD_eq_getElem _ _ (by simpa using hk), List.getElem_map]
      rfl
    have hgv : (((argsort ss).reverse.take n).map (fun i => ss.getD i 0)).getD k 0 =
        ss.getD (((argsort ss).reverse.take n).get ⟨k, hkidx⟩) 0 := by
      rw [List.getD_eq_getElem _ _ (by simpa using hk), List.getElem_map]
      rfl
    rw [hgl, hgv, List.getD_eq_getElem _ _ hips, List.getD_eq_getElem _ _ hiss]
    exact hmemz
  · intro k t hkt ht hveq
    have htidx : t < ((argsort ss).reverse.take n).length := by
      simpa using ht
    have hkidx : k < ((argsort ss).reverse.take n).length := lt_trans hkt htidx
    have hrel := (List.pairwise_iff_get.mp hpw) ⟨k, hkidx⟩ ⟨t, htidx⟩ hkt
    have hiks : ((argsort ss).reverse.take n).get ⟨k, hkidx⟩ < ss.length :=
      hmemlen _ (List.get_mem _ k hkidx)
    have hits : ((argsort ss).reverse.take n).get ⟨t, htidx⟩ < ss.length :=
      hmemlen _ (List.get_mem _ t htidx)
    have hikp : ((argsort ss).reverse.take n).get ⟨k, hkidx⟩ < ps.length := by
      rw [← hlen]; exact hiks
    have hitp : ((argsort ss).reverse.take n).get ⟨t, htidx⟩ < ps.length := by
      rw [← hlen]; exact hits
    have hveq' : ss.getD (((argsort ss).reverse.take n).get ⟨k, hkidx⟩) 0 =
        ss.getD (((argsort ss).reverse.take n).get ⟨t, htidx⟩) 0 := by
      have h1' : (((argsort ss).reverse.take n).map (fun i => ss.getD i 0)).getD k 0 =
          ss.getD (((argsort ss).reverse.take n).get ⟨k, hkidx⟩) 0 := by
        rw [List.getD_eq_getElem _ _ (by simpa using hkidx), List.getElem_map]
        rfl
      have h2' : (((argsort ss).reverse.take n).map (fun i => ss.getD i 0)).getD t 0 =
          ss.getD (((argsort ss).reverse.take n).get ⟨t, htidx⟩) 0 := by
        rw [List.getD_eq_getElem _ _ (by simpa using htidx), List.getElem_map]
        rfl
      rw [← h1', ← h2']
      exact hveq
    rcases hrel with hlt | ⟨heq, hle⟩
    · exact absurd hveq'.symm (ne_of_lt hlt)
    · have hne : ((argsort ss).reverse.take n).get ⟨t, htidx⟩ ≠
          ((argsort ss).reverse.take n).get ⟨k, hkidx⟩ := by
        intro he
        have := (hndidx.get_inj_iff).mp he
        have : t = k := congrArg Fin.val this
        omega
      have hstrict : ((argsort ss).reverse.take n).get ⟨t, htidx⟩ <
          ((argsort ss).reverse.take n).get ⟨k, hkidx⟩ :=
        lt_of_le_of_ne hle hne
      have hglk : (((argsort ss).reverse.take n).map (fun i => ps.getD i "")).getD k "" =
          ps.getD (((argsort ss).reverse.take n).get ⟨k, hkidx⟩) "" := by
        rw [List.getD_eq_getElem _ _ (by simpa using hkidx), List.getElem_map]
        rfl
      have hglt : (((argsort ss).reverse.take n).map (fun i => ps.getD i "")).getD t "" =
          ps.getD (((argsort ss).reverse.take n).get ⟨t, htidx⟩) "" := by
        rw [List.getD_eq_getElem _ _ (by simpa using htidx), List.getElem_map]
        rfl
      rw [hglk, hglt, indexOf_getD_of_nodup ps hndps _ hitp,
        indexOf_getD_of_nodup ps hndps _ hikp]
      exact hstrict

def mC4W : Model :=
  ⟨["Product line", "Total", "Branch", "Quantity", "Rating"],
    [("Product line", .strs ["A", "B"]), ("Total", .nums [10, 20]),
     ("Branch", .strs ["X", "X"]), ("Quantity", .nums [1, 1]),
     ("Rating", .nums [7, 7])], 2⟩

/-- C4 witness: a concrete two-product table whose top products are
`[("B", 20), ("A", 10)]`. -/
theorem C4_witness :
    (get_sales_by_product_line mC4W = some (["A", "B"], [10, 20]) ∧
      get_top_products mC4W 5 = some (["B", "A"], [20, 10])) ∧
    ((["B", "A"] : List String).length ≤ 5 ∧ ([20, 10] : List ℚ).length ≤ 5 ∧
      List.Pairwise (fun a b : ℚ => b ≤ a) [20, 10] ∧
      (∀ k, k < (["B", "A"] : List String).length →
        ((["B", "A"] : List String).getD k "", ([20, 10] : List ℚ).getD k 0) ∈
          (["A", "B"] : List String).zip ([10, 20] : List ℚ)) ∧
      (∀ k t, k < t → t < (["B", "A"] : List String).length →
        ([20, 10] : List ℚ).getD k 0 = ([20, 10] : List ℚ).getD t 0 →
        List.indexOf ((["B", "A"] : List String).getD t "") ["A", "B"] <
          List.indexOf ((["B", "A"] : List String).getD k "") ["A", "B"])) :=
  ⟨⟨by with_unfolding_all decide, by with_unfolding_all decide⟩,
    C4_top_products mC4W 5 ["A", "B"] ["B", "A"] [10, 20] [20, 10]
      (by with_unfolding_all decide) (by with_unfolding_all decide)⟩

/-! ### Claim C2 -/

theorem ratingEdges_eq :
    ratingEdges = [4, 9/2, 5, 11/2, 6, 13/2, 7, 15/2, 8, 17/2, 9, 19/2, 10] := by
  with_unfolding_all decide

/-- C2 counterexample: a loaded table whose only `Rating` value is
`10.0`.  The value lies outside `[4.0, 10.0)`, so the claim says it is
excluded from every bin, yet `np.histogram` counts it in the last bin
`[9.5, 10.0]`, which is closed on the right. -/
theorem C2_counterexample :
    (load_csv ["Branch,Total,Quantity,Rating", "A,1,1,10"]).bind get_rating_distribution =
      some ([4, 9/2, 5, 11/2, 6, 13/2, 7, 15/2, 8, 17/2, 9, 19/2, 10],
            [0, 0, 0, 0, 0, 0, 0, 0, 0, 0, 0, 1]) := by
  with_unfolding_all decide

/-- C2 (amended): the rating distribution uses the fixed edges
`4.0, 4.5, …, 10.0`; for the first eleven bins the count of bin `i` is
the number of ratings `v` with `(8+i)/2 ≤ v < (9+i)/2` (right-open, so a
value on an interior edge falls in the bin starting there), while the
last bin is CLOSED: it counts `9.5 ≤ v ≤ 10`.  Values below `4.0` or
above `10.0` fall in no bin. -/
theorem C2_rating_bins (m : Model) (l : List ℚ)
    (h : dictGet m.data "Rating" = some (.nums l)) :
    get_rating_distribution m = some (ratingEdges, histCounts ratingEdges l) ∧
    (histCounts ratingEdges l).length = 12 ∧
    (∀ i : Nat, i < 11 → (histCounts ratingEdges l).getD i 0 =
      (l.filter (fun v => decide ((8 + (i : ℚ)) / 2 ≤ v) &&
        decide (v < (9 + (i : ℚ)) / 2))).length) ∧
    (histCounts ratingEdges l).getD 11 0 =
      (l.filter (fun v => decide ((19 : ℚ) / 2 ≤ v) && decide (v ≤ 10))).length := by
  have hc : get_column m "Rating" = .nums l := by
    rw [get_column, h]
    rfl
  have h13 : ratingEdges.length = 13 := by
    rw [ratingEdges_eq]
    rfl
  have hcount : ∀ i : Nat, i < 12 → (histCounts ratingEdges l).getD i 0 =
      (l.filter (inBin ratingEdges i)).length := by
    intro i hi
    rw [histCounts, h13]
    have hr : i < (List.range (13 - 1)).length := by
      rw [List.length_range]
      omega
    rw [List.getD_eq_getElem _ _ (by rw [List.length_map]; exact hr), List.getElem_map,
      List.getElem_range]
  refine ⟨?_, ?_, ?_, ?_⟩
  · rw [get_rating_distribution, hc]
  · rw [histCounts, List.length_map, List.length_range, h13]
  · intro i hi
    rw [hcount i (by omega)]
    congr 1
    refine List.filter_congr ?_
    intro v _
    interval_cases i <;> norm_num [inBin, ratingEdges_eq]
  · rw [hcount 11 (by omega)]
    congr 1
    refine List.filter_congr ?_
    intro v _
    norm_num [inBin, ratingEdges_eq]

def mC2W : Model :=
  ⟨["Branch", "Total", "Quantity", "Rating"],
    [("Branch", .strs ["A", "A"]), ("Total", .nums [1, 1]),
     ("Quantity", .nums [1, 1]), ("Rating", .nums [9/2, 10])], 2⟩

/-- C2 witness: a concrete table with ratings `4.5` and `10`; `4.5` sits
on an interior edge and is counted by the right-open bin starting there,
`10` by the closed last bin. -/
theorem C2_witness :
    dictGet mC2W.data "Rating" = some (.nums [9/2, 10]) ∧
    (get_rating_distribution mC2W =
        some (ratingEdges, histCounts ratingEdges [9/2, 10]) ∧
      (histCounts ratingEdges [9/2, 10]).length = 12 ∧
      (∀ i : Nat, i < 11 → (histCounts ratingEdges [9/2, 10]).getD i 0 =
        (([9/2, 10] : List ℚ).filter (fun v => decide ((8 + (i : ℚ)) / 2 ≤ v) &&
          decide (v < (9 + (i : ℚ)) / 2))).length) ∧
      (histCounts ratingEdges [9/2, 10]).getD 11 0 =
        (([9/2, 10] : List ℚ).filter
          (fun v => decide ((19 : ℚ) / 2 ≤ v) && decide (v ≤ 10))).length) :=
  ⟨rfl, C2_rating_bins mC2W [9/2, 10] rfl⟩

end Supermarket
